import Mathlib

/-!
Shallow embedding of the job-record normalization logic of `src/main.py`
(Active Jobs Search API): the `extract_value` alias lookup, the per-entry
normalization loop body of `process_job_data`, and the `process_job_data`
batch wrapper itself.  Python values coming out of `response.json()` are
modelled by the `JsonVal` type; Python truthiness and the `str()` builtin
are modelled explicitly.
-/

/-- Model of a Python value decoded from JSON (plus booleans and `None`),
as handled by `process_job_data` / `extract_value` in `src/main.py`.
Dictionaries are association lists in insertion order with unique keys
(Python dict semantics); numbers are modelled as integers, which covers
every claim under study (no claim involves float formatting). -/
inductive JsonVal where
  | str (s : String)
  | num (n : Int)
  | bool (b : Bool)
  | null
  | list (items : List JsonVal)
  | dict (entries : List (String × JsonVal))

/-- Model of Python truthiness (`bool(v)`): empty string, zero, `False`,
`None`, empty list and empty dict are falsy; everything else is truthy. -/
def pyTruthy : JsonVal → Bool
  | JsonVal.str s => s != ""
  | JsonVal.num n => n != 0
  | JsonVal.bool b => b
  | JsonVal.null => false
  | JsonVal.list items => !items.isEmpty
  | JsonVal.dict entries => !entries.isEmpty

/-- Model of Python `repr` on a string: CPython prefers single quotes and
switches to double quotes when the string contains a single quote but no
double quote; the quote character and backslashes are escaped.  (Control
character escaping is not modelled; no claim depends on it.) -/
def pyReprString (s : String) : String :=
  if s.toList.contains '\'' && !(s.toList.contains '"') then
    "\"" ++ String.join (s.toList.map fun c =>
      if c = '\\' then "\\\\" else String.singleton c) ++ "\""
  else
    "'" ++ String.join (s.toList.map fun c =>
      if c = '\\' then "\\\\" else if c = '\'' then "\\'" else String.singleton c) ++ "'"

mutual
/-- Model of Python `repr(v)` for the values of `JsonVal`. -/
def pyRepr : JsonVal → String
  | JsonVal.str s => pyReprString s
  | JsonVal.num n => toString n
  | JsonVal.bool b => if b then "True" else "False"
  | JsonVal.null => "None"
  | JsonVal.list items => "[" ++ pyReprItems items ++ "]"
  | JsonVal.dict entries => "\x7b" ++ pyReprEntries entries ++ "\x7d"

/-- Comma-separated `repr` of the items of a Python list. -/
def pyReprItems : List JsonVal → String
  | [] => ""
  | [x] => pyRepr x
  | x :: y :: rest => pyRepr x ++ ", " ++ pyReprItems (y :: rest)

/-- Comma-separated `repr` of the entries of a Python dict. -/
def pyReprEntries : List (String × JsonVal) → String
  | [] => ""
  | [(k, v)] => pyReprString k ++ ": " ++ pyRepr v
  | (k, v) :: p :: rest => pyReprString k ++ ": " ++ pyRepr v ++ ", " ++ pyReprEntries (p :: rest)
end

/-- Model of the Python `str()` builtin: a string maps to itself, every
other value to its `repr` (`str(5) = "5"`, `str(True) = "True"`,
`str(None) = "None"`, containers to their `repr`). -/
def pyStr : JsonVal → String
  | JsonVal.str s => s
  | v => pyRepr v

/-- Python dict lookup `d[k]` returning `none` when `k` is absent
(`k in d` is `(dictGet d k).isSome`). -/
def dictGet (entries : List (String × JsonVal)) (k : String) : Option JsonVal :=
  match entries with
  | [] => none
  | (k2, v) :: rest => if k2 = k then some v else dictGet rest k

/-- The test `key in job_dict and job_dict[key]` from line 151 of
`src/main.py`: the key is present and its value is truthy. -/
def keyTruthy (job_dict : List (String × JsonVal)) (k : String) : Bool :=
  match dictGet job_dict k with
  | some v => pyTruthy v
  | none => false

/-- `extract_value` (src/main.py lines 148-153): walk `possible_keys` in
order and return `str()` of the first value whose key is present in
`job_dict` and truthy; `None` if no key qualifies. -/
def extract_value (job_dict : List (String × JsonVal)) (possible_keys : List String) :
    Option String :=
  match possible_keys with
  | [] => none
  | key :: rest =>
    match dictGet job_dict key with
    | some v => if pyTruthy v then some (pyStr v) else extract_value job_dict rest
    | none => extract_value job_dict rest

/-- Alias list for the title field (src/main.py line 116). -/
def title_keys : List String := ["title", "job_title", "jobTitle", "position", "role"]

/-- Alias list for the company field (src/main.py line 117). -/
def company_keys : List String :=
  ["company", "company_name", "companyName", "employer", "organization"]

/-- Alias list for the link field (src/main.py line 118). -/
def link_keys : List String :=
  ["url", "link", "job_url", "jobUrl", "apply_link", "application_link"]

/-- Alias list for the location field (src/main.py line 119). -/
def location_keys : List String :=
  ["location", "job_location", "jobLocation", "area", "place"]

/-- Alias list for the description field (src/main.py line 120). -/
def desc_keys : List String :=
  ["description", "job_description", "jobDescription", "details", "summary"]

/-- Alias list for the date field (src/main.py line 121). -/
def date_keys : List String :=
  ["date", "date_posted", "datePosted", "posted_date", "postDate"]

/-- Python `x or d` for `x : Optional[str]` and a string default `d`
(line 128 of `src/main.py`): `None` and the empty string fall back to `d`. -/
def pyOrStr (x : Option String) (d : String) : String :=
  match x with
  | some s => if s = "" then d else s
  | none => d

/-- The `JobDetail` pydantic model (src/main.py lines 24-30): `job_title`
is required, the remaining five fields default to `None`. -/
structure JobDetail where
  job_title : String
  company_name : Option String := none
  job_link : Option String := none
  location : Option String := none
  description : Option String := none
  date_posted : Option String := none
deriving DecidableEq, Repr

/-- The serialized key/value pairs of a `JobDetail`, in the declaration
order of the pydantic model (src/main.py lines 24-30); `none` fields
serialize as `null`.  The `job_title` value is always present. -/
def jobDetailFields (r : JobDetail) : List (String × Option String) :=
  [("job_title", some r.job_title), ("company_name", r.company_name),
   ("job_link", r.job_link), ("location", r.location),
   ("description", r.description), ("date_posted", r.date_posted)]

/-- Loop body of `process_job_data` for one mapping-typed entry
(src/main.py lines 128-142): extract the six fields through their alias
lists; the title falls back to "N/A" via Python `or`. -/
def normalizeEntry (job : List (String × JsonVal)) : JobDetail :=
  { job_title := pyOrStr (extract_value job title_keys) "N/A"
  , company_name := extract_value job company_keys
  , job_link := extract_value job link_keys
  , location := extract_value job location_keys
  , description := extract_value job desc_keys
  , date_posted := extract_value job date_keys }

/-- The `for job in jobs_list` loop of `process_job_data` (src/main.py
lines 123-144): entries that are not dicts are skipped (`continue`),
each dict entry contributes one `JobDetail`. -/
def processEntries : List JsonVal → List JobDetail
  | [] => []
  | JsonVal.dict kvs :: rest => normalizeEntry kvs :: processEntries rest
  | _ :: rest => processEntries rest

/-- `isinstance(v, list)`. -/
def isList : JsonVal → Bool
  | JsonVal.list _ => true
  | _ => false

/-- `isinstance(v, dict)`. -/
def isDict : JsonVal → Bool
  | JsonVal.dict _ => true
  | _ => false

/-- The fallback scan of `process_job_data` (src/main.py lines 107-110):
iterate the dict's items in insertion order and take the first
list-typed value. -/
def firstListValue : List (String × JsonVal) → Option (List JsonVal)
  | [] => none
  | (_, JsonVal.list items) :: _ => some items
  | _ :: rest => firstListValue rest

/-- `process_job_data` (src/main.py lines 90-146).  A non-dict input
returns `[]` at once (line 95), which makes the `isinstance(job_data,
list)` branch at lines 100-101 unreachable.  For a dict: take
`job_data["jobs"]` if it is a list, otherwise the first list-typed
value at top level, truncate to `limit` (`[:limit]`; `limit` is
validated to `1 ≤ limit ≤ 50` upstream so Python slicing agrees with
`List.take`), return `[]` if the slice is empty, else run the
per-entry loop. -/
def process_job_data (job_data : JsonVal) (limit : Nat) : List JobDetail :=
  match job_data with
  | JsonVal.dict kvs =>
    let jobs_list : List JsonVal :=
      match dictGet kvs "jobs" with
      | some (JsonVal.list js) => js.take limit
      | _ =>
        match firstListValue kvs with
        | some items => items.take limit
        | none => []
    if jobs_list.isEmpty then [] else processEntries jobs_list
  | _ => []

/-- The list that `process_job_data` selects from a top-level dict before
truncation: `job_data["jobs"]` when that is a list, otherwise the first
list-typed top-level value, otherwise the empty list. -/
def selectJobs (kvs : List (String × JsonVal)) : List JsonVal :=
  match dictGet kvs "jobs" with
  | some (JsonVal.list js) => js
  | _ =>
    match firstListValue kvs with
    | some items => items
    | none => []

/-! ## Helper lemmas shared by the claim theorems -/

/-- Unfolding lemma: a key that is absent or carries a falsy value is
skipped by `extract_value`. -/
theorem extract_value_skip (job : List (String × JsonVal)) (k : String) (rest : List String)
    (h : keyTruthy job k = false) :
    extract_value job (k :: rest) = extract_value job rest := by
  rw [extract_value]
  cases hd : dictGet job k with
  | none => rfl
  | some v =>
    have ht : pyTruthy v = false := by simpa [keyTruthy, hd] using h
    simp [ht]

/-- Unfolding lemma: a key that is present with a truthy value is
selected and stringified by `extract_value`. -/
theorem extract_value_hit (job : List (String × JsonVal)) (k : String) (v : JsonVal)
    (rest : List String) (hk : dictGet job k = some v) (hv : pyTruthy v = true) :
    extract_value job (k :: rest) = some (pyStr v) := by
  rw [extract_value]
  simp [hk, hv]

/-- If no key of the alias list is present with a truthy value, the
lookup yields `none`. -/
theorem extract_value_none_of_all_false (job : List (String × JsonVal)) (keys : List String)
    (h : ∀ k ∈ keys, keyTruthy job k = false) : extract_value job keys = none := by
  induction keys with
  | nil => rfl
  | cons k rest ih =>
    rw [extract_value_skip job k rest (h k (List.mem_cons_self _ _))]
    exact ih fun k2 hk2 => h k2 (List.mem_cons_of_mem _ hk2)

/-- The per-entry loop never produces more records than it has entries. -/
theorem processEntries_length_le (l : List JsonVal) :
    (processEntries l).length ≤ l.length := by
  induction l with
  | nil => simp [processEntries]
  | cons x rest ih => cases x <;> simp [processEntries] <;> omega

/-- The per-entry loop produces exactly one record per dict-typed entry. -/
theorem processEntries_length_eq_countP (l : List JsonVal) :
    (processEntries l).length = l.countP (fun j => isDict j) := by
  induction l with
  | nil => rfl
  | cons x rest ih => cases x <;> simp [processEntries, List.countP_cons, isDict, ih]

/-- A successful dict lookup returns the value of an entry of the dict. -/
theorem dictGet_mem (entries : List (String × JsonVal)) (k : String) (v : JsonVal)
    (h : dictGet entries k = some v) : ∃ p ∈ entries, p.2 = v := by
  induction entries with
  | nil => exact absurd h (by simp [dictGet])
  | cons p rest ih =>
    obtain ⟨k2, v2⟩ := p
    rw [dictGet] at h
    split at h
    · exact ⟨(k2, v2), List.mem_cons_self _ _, Option.some.inj h⟩
    · obtain ⟨q, hq, hqv⟩ := ih h
      exact ⟨q, List.mem_cons_of_mem _ hq, hqv⟩

/-- The fallback scan returns a list that is the value of an entry. -/
theorem firstListValue_mem (entries : List (String × JsonVal)) (items : List JsonVal)
    (h : firstListValue entries = some items) : ∃ p ∈ entries, p.2 = JsonVal.list items := by
  induction entries with
  | nil => exact absurd h (by simp [firstListValue])
  | cons p rest ih =>
    obtain ⟨k2, v2⟩ := p
    cases v2 with
    | list xs =>
      rw [firstListValue] at h
      injection h with h2
      exact ⟨(k2, JsonVal.list xs), List.mem_cons_self _ _, by rw [h2]⟩
    | str s =>
      obtain ⟨q, hq, hqv⟩ := ih (by simpa [firstListValue] using h)
      exact ⟨q, List.mem_cons_of_mem _ hq, hqv⟩
    | num n =>
      obtain ⟨q, hq, hqv⟩ := ih (by simpa [firstListValue] using h)
      exact ⟨q, List.mem_cons_of_mem _ hq, hqv⟩
    | bool b =>
      obtain ⟨q, hq, hqv⟩ := ih (by simpa [firstListValue] using h)
      exact ⟨q, List.mem_cons_of_mem _ hq, hqv⟩
    | null =>
      obtain ⟨q, hq, hqv⟩ := ih (by simpa [firstListValue] using h)
      exact ⟨q, List.mem_cons_of_mem _ hq, hqv⟩
    | dict kvs =>
      obtain ⟨q, hq, hqv⟩ := ih (by simpa [firstListValue] using h)
      exact ⟨q, List.mem_cons_of_mem _ hq, hqv⟩

/-- The guard `if not jobs_list: return []` is redundant relative to the
loop: an empty list produces no records anyway. -/
theorem processEntries_ite (l : List JsonVal) :
    (if l.isEmpty then ([] : List JobDetail) else processEntries l) = processEntries l := by
  cases l <;> simp [processEntries]

/-- Characterization of `process_job_data` on dict inputs: select a list,
truncate to `limit`, run the per-entry loop. -/
theorem process_job_data_dict (kvs : List (String × JsonVal)) (limit : Nat) :
    process_job_data (JsonVal.dict kvs) limit = processEntries ((selectJobs kvs).take limit) := by
  unfold process_job_data selectJobs
  dsimp only
  cases dictGet kvs "jobs" with
  | none =>
    cases firstListValue kvs with
    | none => simp [processEntries]
    | some items => exact processEntries_ite _
  | some v =>
    cases v with
    | list js => exact processEntries_ite _
    | str s =>
      cases firstListValue kvs with
      | none => simp [processEntries]
      | some items => exact processEntries_ite _
    | num n =>
      cases firstListValue kvs with
      | none => simp [processEntries]
      | some items => exact processEntries_ite _
    | bool b =>
      cases firstListValue kvs with
      | none => simp [processEntries]
      | some items => exact processEntries_ite _
    | null =>
      cases firstListValue kvs with
      | none => simp [processEntries]
      | some items => exact processEntries_ite _
    | dict kvs2 =>
      cases firstListValue kvs with
      | none => simp [processEntries]
      | some items => exact processEntries_ite _

/-! ## Claim theorems -/

/-- Claim C1: when at least one alias key is present with a truthy value,
`extract_value` returns the stringified value of the first such alias in
declared order, skipping every earlier alias that is absent or carries an
empty/falsy value, and ignoring all later aliases. -/
theorem extract_value_first_truthy_alias (job : List (String × JsonVal))
    (pre post : List String) (k : String) (v : JsonVal)
    (hpre : ∀ k2 ∈ pre, keyTruthy job k2 = false)
    (hk : dictGet job k = some v) (hv : pyTruthy v = true) :
    extract_value job (pre ++ k :: post) = some (pyStr v) := by
  induction pre with
  | nil => simpa using extract_value_hit job k v post hk hv
  | cons p ps ih =>
    rw [List.cons_append,
      extract_value_skip job p (ps ++ k :: post) (hpre p (List.mem_cons_self _ _))]
    exact ih fun k2 h2 => hpre k2 (List.mem_cons_of_mem _ h2)

/-- Witness for C1, on the spec's own example extended with a later
non-empty alias: the empty `title` is skipped, `job_title` wins, and the
later `jobTitle` is ignored. -/
theorem extract_value_first_truthy_alias_witness :
    extract_value [("title", JsonVal.str ""), ("job_title", JsonVal.str "Engineer"),
      ("jobTitle", JsonVal.str "Ignored")] title_keys = some "Engineer" := by
  have h := extract_value_first_truthy_alias
    [("title", JsonVal.str ""), ("job_title", JsonVal.str "Engineer"),
      ("jobTitle", JsonVal.str "Ignored")]
    ["title"] ["jobTitle", "position", "role"] "job_title" (JsonVal.str "Engineer")
    (by decide) rfl (by decide)
  simpa [title_keys, pyStr] using h

/-- Claim C2: field by field, whenever no alias of that one field is
present with a truthy value in the entry, the normalized entry carries
that field's documented absent marker -- "N/A" for the title, `none` for
each of the five optional fields -- independently of what the other
fields' aliases hold. -/
theorem normalizeEntry_defaults (job : List (String × JsonVal)) :
    ((∀ k ∈ title_keys, keyTruthy job k = false) →
      (normalizeEntry job).job_title = "N/A")
    ∧ ((∀ k ∈ company_keys, keyTruthy job k = false) →
      (normalizeEntry job).company_name = none)
    ∧ ((∀ k ∈ link_keys, keyTruthy job k = false) →
      (normalizeEntry job).job_link = none)
    ∧ ((∀ k ∈ location_keys, keyTruthy job k = false) →
      (normalizeEntry job).location = none)
    ∧ ((∀ k ∈ desc_keys, keyTruthy job k = false) →
      (normalizeEntry job).description = none)
    ∧ ((∀ k ∈ date_keys, keyTruthy job k = false) →
      (normalizeEntry job).date_posted = none) := by
  refine ⟨?_, ?_, ?_, ?_, ?_, ?_⟩ <;> intro h <;>
    simp [normalizeEntry, pyOrStr, extract_value_none_of_all_false job _ h]

/-- Witness for C2 on a mixed entry: `company` is present with a truthy
value, yet the title aliases all fail, so the title alone falls back to
"N/A" (and the date field, also without aliases, to `none`). -/
theorem normalizeEntry_defaults_witness :
    (normalizeEntry [("company", JsonVal.str "Acme")]).job_title = "N/A"
    ∧ (normalizeEntry [("company", JsonVal.str "Acme")]).date_posted = none :=
  ⟨(normalizeEntry_defaults [("company", JsonVal.str "Acme")]).1 (by decide),
   (normalizeEntry_defaults [("company", JsonVal.str "Acme")]).2.2.2.2.2 (by decide)⟩

/-- Claim C3: `process_job_data` returns at most `limit` records for
every input value and every limit. -/
theorem process_job_data_length_le_limit (job_data : JsonVal) (limit : Nat) :
    (process_job_data job_data limit).length ≤ limit := by
  cases job_data with
  | dict kvs =>
    rw [process_job_data_dict]
    exact le_trans (processEntries_length_le _)
      (by rw [List.length_take]; exact Nat.min_le_left _ _)
  | str s => exact Nat.zero_le _
  | num n => exact Nat.zero_le _
  | bool b => exact Nat.zero_le _
  | null => exact Nat.zero_le _
  | list items => exact Nat.zero_le _

/-- Claim C4: a non-dict response, and a dict response with no list-typed
top-level value, both yield the empty list as an ordinary return value
(the embedding returns a plain list; no error path exists). -/
theorem process_job_data_no_list_eq_nil :
    (∀ (job_data : JsonVal) (limit : Nat), isDict job_data = false →
        process_job_data job_data limit = [])
    ∧ (∀ (kvs : List (String × JsonVal)) (limit : Nat),
        (∀ p ∈ kvs, isList p.2 = false) →
        process_job_data (JsonVal.dict kvs) limit = []) := by
  constructor
  · intro jd limit h
    cases jd with
    | dict kvs => simp [isDict] at h
    | str s => rfl
    | num n => rfl
    | bool b => rfl
    | null => rfl
    | list items => rfl
  · intro kvs limit h
    have hfl : firstListValue kvs = none := by
      cases h2 : firstListValue kvs with
      | none => rfl
      | some items =>
        obtain ⟨p, hp, hpv⟩ := firstListValue_mem kvs items h2
        have hi := h p hp
        rw [hpv] at hi
        simp [isList] at hi
    have hjobs : ∀ js, dictGet kvs "jobs" ≠ some (JsonVal.list js) := by
      intro js hj
      obtain ⟨p, hp, hpv⟩ := dictGet_mem kvs "jobs" _ hj
      have hi := h p hp
      rw [hpv] at hi
      simp [isList] at hi
    have hsel : selectJobs kvs = [] := by
      unfold selectJobs
      cases hj : dictGet kvs "jobs" with
      | none => simp [hfl]
      | some v =>
        cases v with
        | list js => exact absurd hj (hjobs _)
        | str s => simp [hfl]
        | num n => simp [hfl]
        | bool b => simp [hfl]
        | null => simp [hfl]
        | dict d => simp [hfl]
    rw [process_job_data_dict, hsel]
    simp [processEntries]

/-- Witness for C4: a string response and a dict response whose only
value is a string both map to the empty list. -/
theorem process_job_data_no_list_eq_nil_witness :
    process_job_data (JsonVal.str "oops") 10 = []
    ∧ process_job_data (JsonVal.dict [("message", JsonVal.str "no results")]) 10 = [] :=
  ⟨process_job_data_no_list_eq_nil.1 _ 10 rfl,
   process_job_data_no_list_eq_nil.2 _ 10 (by decide)⟩

/-- Claim C5 (failing input): a bare top-level list is rejected by the
non-dict guard at line 95 of `src/main.py` before the unreachable
`isinstance(job_data, list)` branch at lines 100-101 could run, so
`process_job_data` returns `[]`; running the per-entry loop on the same
(truncated) list, as the claim describes, would instead produce one
record with title "X". -/
theorem process_job_data_bare_list_eq_nil :
    process_job_data (JsonVal.list [JsonVal.dict [("title", JsonVal.str "X")]]) 5 = []
    ∧ processEntries (([JsonVal.dict [("title", JsonVal.str "X")]] : List JsonVal).take 5)
        = [({ job_title := "X" } : JobDetail)] :=
  ⟨rfl, by decide⟩

/-- Claim C6: every value that `extract_value` returns is the `str()`
image of the truthy value found at one of the alias keys, so every
present output field is a string produced by the stringifier. -/
theorem extract_value_some_is_stringified (job : List (String × JsonVal))
    (keys : List String) (s : String)
    (h : extract_value job keys = some s) :
    ∃ k ∈ keys, ∃ v, dictGet job k = some v ∧ pyTruthy v = true ∧ s = pyStr v := by
  induction keys with
  | nil => exact absurd h (by simp [extract_value])
  | cons key rest ih =>
    rw [extract_value] at h
    split at h
    next v hd =>
      split at h
      next ht =>
        exact ⟨key, List.mem_cons_self _ _, v, hd, ht, (Option.some.inj h).symm⟩
      next ht =>
        obtain ⟨k, hk, hv⟩ := ih h
        exact ⟨k, List.mem_cons_of_mem _ hk, hv⟩
    next hd =>
      obtain ⟨k, hk, hv⟩ := ih h
      exact ⟨k, List.mem_cons_of_mem _ hk, hv⟩

/-- Witness for C6: the integer 42 found under `title` is returned as
the string "42". -/
theorem extract_value_some_is_stringified_witness :
    ∃ k ∈ title_keys, ∃ v, dictGet [("title", JsonVal.num 42)] k = some v
      ∧ pyTruthy v = true ∧ "42" = pyStr v :=
  extract_value_some_is_stringified [("title", JsonVal.num 42)] title_keys "42" (by decide)

/-- Claim C7: empty strings, `None`, `False` and `0` are all falsy; an
alias key that is absent or carries a falsy value is skipped; and the
lookup depends only on the top-level values at the alias keys, so nested
mappings are never traversed. -/
theorem extract_value_skip_and_toplevel :
    (pyTruthy (JsonVal.str "") = false ∧ pyTruthy JsonVal.null = false
      ∧ pyTruthy (JsonVal.bool false) = false ∧ pyTruthy (JsonVal.num 0) = false)
    ∧ (∀ (job : List (String × JsonVal)) (k : String) (rest : List String),
        keyTruthy job k = false →
        extract_value job (k :: rest) = extract_value job rest)
    ∧ (∀ (job job2 : List (String × JsonVal)) (keys : List String),
        (∀ k ∈ keys, dictGet job k = dictGet job2 k) →
        extract_value job keys = extract_value job2 keys) := by
  refine ⟨⟨by decide, rfl, rfl, by decide⟩, extract_value_skip, ?_⟩
  intro job job2 keys
  induction keys with
  | nil => intro h; rfl
  | cons key rest ih =>
    intro h
    have ih2 := ih fun k hk => h k (List.mem_cons_of_mem _ hk)
    rw [extract_value, extract_value, h key (List.mem_cons_self _ _)]
    cases hd : dictGet job2 key with
    | none => exact ih2
    | some v =>
      cases htv : pyTruthy v with
      | true => simp [htv]
      | false => simp [htv, ih2]

/-- Witness for C7: the falsy value under `title` makes the head alias
drop out of the lookup. -/
theorem extract_value_skip_and_toplevel_witness :
    extract_value [("title", JsonVal.str "")] ["title", "job_title"]
      = extract_value [("title", JsonVal.str "")] ["job_title"] :=
  extract_value_skip_and_toplevel.2.1 _ "title" ["job_title"] (by decide)

/-- Claim C8: `extract_value` is total and pure: on every pair of inputs
it equals a closed-form function of exactly those inputs (the first alias
passing the truthiness test, looked up and stringified), so it terminates
without error and identical inputs give identical outputs.  Totality is
also witnessed by the definition being accepted as structural recursion. -/
theorem extract_value_total_pure (job : List (String × JsonVal)) (keys : List String) :
    extract_value job keys
      = (keys.find? fun k => keyTruthy job k).bind fun k => (dictGet job k).map pyStr := by
  induction keys with
  | nil => rfl
  | cons key rest ih =>
    rw [extract_value]
    cases hd : dictGet job key with
    | none =>
      have hkt : keyTruthy job key = false := by simp [keyTruthy, hd]
      rw [List.find?_cons_of_neg _ (by simp [hkt])]
      exact ih
    | some v =>
      cases htv : pyTruthy v with
      | true =>
        have hkt : keyTruthy job key = true := by simp [keyTruthy, hd, htv]
        rw [List.find?_cons_of_pos _ hkt]
        simp [hd, htv]
      | false =>
        have hkt : keyTruthy job key = false := by simp [keyTruthy, hd, htv]
        rw [List.find?_cons_of_neg _ (by simp [hkt])]
        simpa [htv] using ih

/-- Claim C9 (counterexample): the record produced by the normalizer
serializes with field keys `job_title`, `company_name`, `job_link`,
`location`, `description`, `date_posted`; there is no `page` field and
no field literally named `title`, refuting the claimed field set. -/
theorem jobDetail_fields_counterexample :
    (jobDetailFields (normalizeEntry [])).map Prod.fst
      = ["job_title", "company_name", "job_link", "location", "description", "date_posted"]
    ∧ "page" ∉ (jobDetailFields (normalizeEntry [])).map Prod.fst
    ∧ "title" ∉ (jobDetailFields (normalizeEntry [])).map Prod.fst := by
  refine ⟨rfl, by decide, by decide⟩

/-- Claim C9 (amended): every normalized record consists of exactly the
fields `job_title` (string, required, defaulting to "N/A" when no title
alias yields a value), `company_name`, `job_link`, `location`,
`description` and `date_posted` (each string-or-absent); no `page` field
exists in this variant. -/
theorem jobDetail_fields_amended (job : List (String × JsonVal)) :
    (jobDetailFields (normalizeEntry job)).map Prod.fst
      = ["job_title", "company_name", "job_link", "location", "description", "date_posted"]
    ∧ (extract_value job title_keys = none → (normalizeEntry job).job_title = "N/A") := by
  refine ⟨rfl, ?_⟩
  intro h
  simp [normalizeEntry, h, pyOrStr]

/-- Witness for the amended C9, on the empty raw entry. -/
theorem jobDetail_fields_amended_witness :
    (jobDetailFields (normalizeEntry [])).map Prod.fst
      = ["job_title", "company_name", "job_link", "location", "description", "date_posted"]
    ∧ (normalizeEntry []).job_title = "N/A" :=
  ⟨(jobDetail_fields_amended []).1, (jobDetail_fields_amended []).2 rfl⟩

/-- Claim C10: on a dict response, `process_job_data` runs the per-entry
loop on the selected list truncated to `limit`, producing exactly one
record per dict-typed entry among those first `limit` elements; since
non-dict entries are dropped only after truncation, a response whose
list holds at least `limit` dict entries overall can still yield fewer
than `limit` records (concrete instance in the second conjunct). -/
theorem process_job_data_per_entry :
    (∀ (kvs : List (String × JsonVal)) (limit : Nat),
        process_job_data (JsonVal.dict kvs) limit
          = processEntries ((selectJobs kvs).take limit)
        ∧ (process_job_data (JsonVal.dict kvs) limit).length
          = ((selectJobs kvs).take limit).countP (fun j => isDict j))
    ∧ ∃ (kvs : List (String × JsonVal)) (L : List JsonVal) (limit : Nat),
        dictGet kvs "jobs" = some (JsonVal.list L)
        ∧ limit ≤ L.countP (fun j => isDict j)
        ∧ (process_job_data (JsonVal.dict kvs) limit).length < limit := by
  constructor
  · intro kvs limit
    refine ⟨process_job_data_dict kvs limit, ?_⟩
    rw [process_job_data_dict]
    exact processEntries_length_eq_countP _
  · exact ⟨[("jobs", JsonVal.list [JsonVal.str "x", JsonVal.dict [], JsonVal.dict []])],
      [JsonVal.str "x", JsonVal.dict [], JsonVal.dict []], 2, rfl, by decide, by decide⟩
